import Mathlib

/-!
Shallow embedding of the `rust-chip8` CHIP-8 emulator and proofs about it.

Conventions of the embedding:
* machine integers (`u8`, `u16`) are modelled as `Nat` with explicit `% 256`
  resp. `% 65536` where the Rust code can wrap (release-mode wrapping
  semantics); where a Rust operation panics in every build (array index out
  of bounds, `u8` stack-pointer underflow followed by an out-of-bounds
  index), the modelled operation returns `none`;
* fixed-size Rust arrays (`[[bool; 64]; 32]`, `[u8; 4096]`, `[u16; 16]`,
  `[u8; 16]`) are modelled as total functions out of `Nat` whose meaningful
  domain is the array's index range, updated pointwise; indexing that the
  Rust code bounds-checks dynamically is guarded and fallible;
* the `HashSet<u8>` of pressed keys is modelled as its membership function;
* the buzzer's single-slot volume channel is modelled as the `buzzer`
  field, holding the last commanded level (`true` = ON).
-/

namespace RustChip8

/-! ## Display (`src/display.rs`) -/

def DISPLAY_WIDTH : Nat := 64

def DISPLAY_HEIGHT : Nat := 32

/-- The 64×32 pixel grid `at: [[bool; DISPLAY_WIDTH]; DISPLAY_HEIGHT]`,
as a function sending (row, column) to the pixel value. -/
def Display : Type := Nat → Nat → Bool

/-- `Display::new`: `at: [[false; DISPLAY_WIDTH]; DISPLAY_HEIGHT]` (the color
fields of the Rust struct play no role in the pixel state and are omitted). -/
def Display.new : Display := fun _ _ => false

/-- `Display::clear`. -/
def Display.clear (_d : Display) : Display := fun _ _ => false

/-- Pointwise array store `self.at[r][c] = v`. -/
def Display.set (d : Display) (r c : Nat) (v : Bool) : Display :=
  fun r' c' => if r' = r ∧ c' = c then v else d r' c'

/-- The incoming sprite bit `(line >> (7 - offset_x)) % 2 == 1`. -/
def lineBit (line offset_x : Nat) : Bool :=
  decide ((line >>> (7 - offset_x)) % 2 = 1)

/-- Body of the inner `for offset_x in 0..8` loop of `Display::draw_sprite`:
the accumulator carries the mutated grid and the `collision` flag. -/
def drawCell (wrapped_y x line : Nat) (acc : Display × Bool) (offset_x : Nat) :
    Display × Bool :=
  let wrapped_x := (x + offset_x) % DISPLAY_WIDTH
  let old := acc.1 wrapped_y wrapped_x
  let new := lineBit line offset_x
  (Display.set acc.1 wrapped_y wrapped_x (xor old new), acc.2 || (old && new))

/-- Body of the outer `for (offset_y, line) in sprite.iter().enumerate()` loop
of `Display::draw_sprite`. -/
def drawRow (x y : Nat) (acc : Display × Bool) (offset_y line : Nat) :
    Display × Bool :=
  (List.range 8).foldl (drawCell ((y + offset_y) % DISPLAY_HEIGHT) x line) acc

/-- `Display::draw_sprite(x, y, sprite) -> collision`: returns the new grid
together with the collision flag. -/
def Display.draw_sprite (d : Display) (x y : Nat) (sprite : List Nat) :
    Display × Bool :=
  sprite.enum.foldl (fun acc p => drawRow x y acc p.1 p.2) (d, false)

/-! ## Memory (`src/memory.rs`) -/

def MEMORY_SIZE : Nat := 4096

def FONT_SIZE : Nat := 5

/-- The built-in font table `FONT: [u8; FONT_SIZE * 16]`. -/
def FONT : List Nat :=
  [0xF0, 0x90, 0x90, 0x90, 0xF0,
   0x20, 0x60, 0x20, 0x20, 0x70,
   0xF0, 0x10, 0xF0, 0x80, 0xF0,
   0xF0, 0x10, 0xF0, 0x10, 0xF0,
   0x90, 0x90, 0xF0, 0x10, 0x10,
   0xF0, 0x80, 0xF0, 0x10, 0xF0,
   0xF0, 0x80, 0xF0, 0x90, 0xF0,
   0xF0, 0x10, 0x20, 0x40, 0x40,
   0xF0, 0x90, 0xF0, 0x90, 0xF0,
   0xF0, 0x90, 0xF0, 0x10, 0xF0,
   0xF0, 0x90, 0xF0, 0x90, 0x90,
   0xE0, 0x90, 0xE0, 0x90, 0xE0,
   0xF0, 0x80, 0x80, 0x80, 0xF0,
   0xE0, 0x90, 0x90, 0x90, 0xE0,
   0xF0, 0x80, 0xF0, 0x80, 0xF0,
   0xF0, 0x80, 0xF0, 0x80, 0x80]

/-- The 4096-byte address space `at: [u8; MEMORY_SIZE]`, as a function from
addresses to byte values. -/
def Memory : Type := Nat → Nat

/-- `Memory::load(addr)`: `self.at[addr as usize]`; the Rust array index
panics outside `[0, 4096)`, modelled by `none`. -/
def Memory.load (m : Memory) (addr : Nat) : Option Nat :=
  if addr < MEMORY_SIZE then some (m addr) else none

/-- `Memory::store(addr, value)`: `self.at[addr as usize] = value`; the Rust
array index panics outside `[0, 4096)`, modelled by `none`. -/
def Memory.store (m : Memory) (addr value : Nat) : Option Memory :=
  if addr < MEMORY_SIZE then
    some (fun a => if a = addr then value else m a)
  else none

/-- `Memory::load_sprite(from, size)`: the slice `&self.at[from..from + size]`;
slicing past the end of the array panics, modelled by `none`. -/
def Memory.load_sprite (m : Memory) (from_ size : Nat) : Option (List Nat) :=
  if from_ + size ≤ MEMORY_SIZE then
    some ((List.range size).map (fun k => m (from_ + k)))
  else none

/-- `Memory::font_addr(font)`: `(font * FONT_SIZE) as u16`; the multiplication
is performed on `u8`, hence the `% 256`. -/
def Memory.font_addr (font : Nat) : Nat :=
  (font * FONT_SIZE) % 256

/-- Sequential byte stores at consecutive addresses, as performed by the two
`for (offset, &b) in ….iter().enumerate()` loops of `Memory::with_rom`. -/
def storeBytes (m : Memory) (base : Nat) : List Nat → Option Memory
  | [] => some m
  | b :: rest => (m.store base b).bind (fun m' => storeBytes m' (base + 1) rest)

/-- `Memory::with_rom(rom)`: zero the region, write the font table at
address 0, then copy the ROM starting at `rom_from = 0x200`.  There is no
capacity check; a write past the end of the array panics (`none`). -/
def Memory.with_rom (rom : List Nat) : Option Memory :=
  (storeBytes (fun _ => 0) 0 FONT).bind (fun m => storeBytes m 0x200 rom)

/-! ## Keyboard (`src/keyboard.rs`) -/

/-- The `HashSet<u8>` of pressed keys, as its membership function. -/
def Keyboard : Type := Nat → Bool

def Keyboard.new : Keyboard := fun _ => false

/-- `KeyboardMessage`. -/
inductive KeyboardMessage : Type
  | Press (value : Nat)
  | Release (value : Nat)

/-- `Keyboard::update`: insert on `Press`, remove on `Release`. -/
def Keyboard.update (k : Keyboard) : KeyboardMessage → Keyboard
  | .Press value => fun v => if v = value then true else k v
  | .Release value => fun v => if v = value then false else k v

/-- `Keyboard::is_pressed`. -/
def Keyboard.is_pressed (k : Keyboard) (value : Nat) : Bool := k value

/-! ## The VM state (`src/chip8.rs`)

The Rust `Chip8` struct owns `Registers { v, i, pc, sp, stack }`,
`Timers { dt, st }`, `Memory`, `Display`, `Keyboard`, the last commanded
buzzer level, and `waiting_key_for`; the substructures are inlined here,
keeping the field names. -/

structure Chip8 : Type where
  /-- `v: [u8; 16]` -/
  v : Nat → Nat
  /-- `i: u16` -/
  i : Nat
  /-- `pc: u16` -/
  pc : Nat
  /-- `sp: u8` -/
  sp : Nat
  /-- `stack: [u16; 16]` -/
  stack : Nat → Nat
  /-- `dt: u8` -/
  dt : Nat
  /-- `st: u8` -/
  st : Nat
  memory : Memory
  display : Display
  keyboard : Keyboard
  /-- last level commanded to the buzzer (`true` = ON) -/
  buzzer : Bool
  /-- `waiting_key_for: Option<u8>` -/
  waiting_key_for : Option Nat

/-- Pointwise register-file store `self.registers.v[x as usize] = value`
(the index is always a nibble, hence in bounds). -/
def setV (v : Nat → Nat) (x value : Nat) : Nat → Nat :=
  fun n => if n = x then value else v n

/-- `Chip8::new` minus the iced plumbing: fresh registers and timers,
`Memory::with_rom(rom)`, a cleared display, no pressed keys, buzzer volume
zero, and no pending key wait.  Fails when loading the ROM panics. -/
def Chip8.new (rom : List Nat) : Option Chip8 :=
  (Memory.with_rom rom).map (fun m =>
    { v := fun _ => 0x00
      i := 0x000
      pc := 0x200
      sp := 0x0
      stack := fun _ => 0x000
      dt := 0x00
      st := 0x00
      memory := m
      display := Display.new
      keyboard := Keyboard.new
      buzzer := false
      waiting_key_for := none })

/-- `value_of(n1, n2)` from `src/chip8.rs`. -/
def value_of (n1 n2 : Nat) : Nat := n1 * 0x10 + n2

/-- `address_of(n1, n2, n3)` from `src/chip8.rs`. -/
def address_of (n1 n2 n3 : Nat) : Nat := n1 * 0x100 + n2 * 0x010 + n3

/-- `Chip8::execute(h1, h2, h3, h4)`: one decoded instruction.  The `match`
over the four nibbles becomes a cascade of tests in the source's arm order
(a condition only constrains the nibbles that the corresponding Rust
pattern tests against literals).  `rand` stands for the byte drawn by
`rand::thread_rng().gen_range(0..0xFF)` in the `Cxkk` arm.  Arms that the
Rust code can only leave by panicking (out-of-bounds stack or memory index,
stack-pointer underflow, the `UNSUPPORTED INST` panic) yield `none`. -/
def execute (rand : Nat) (h1 h2 h3 h4 : Nat) (s : Chip8) : Option Chip8 :=
  if h1 = 0x0 ∧ h2 = 0x0 ∧ h3 = 0xE ∧ h4 = 0x0 then
    -- CLS
    some { s with display := Display.clear s.display, pc := (s.pc + 2) % 65536 }
  else if h1 = 0x0 ∧ h2 = 0x0 ∧ h3 = 0xE ∧ h4 = 0xE then
    -- RET: `sp -= 1; pc = stack[sp]; pc += 2` (at `sp = 0` the `u8`
    -- subtraction underflows and the subsequent index faults)
    if s.sp = 0 then none
    else if s.sp - 1 < 16 then
      some { s with sp := s.sp - 1, pc := (s.stack (s.sp - 1) + 2) % 65536 }
    else none
  else if h1 = 0x1 then
    -- JP nnn
    some { s with pc := address_of h2 h3 h4 }
  else if h1 = 0x2 then
    -- CALL nnn: `stack[sp] = pc; sp += 1; pc = addr`
    if s.sp < 16 then
      some { s with stack := fun n => if n = s.sp then s.pc else s.stack n
                    sp := s.sp + 1
                    pc := address_of h2 h3 h4 }
    else none
  else if h1 = 0x3 then
    -- SE Vx kk
    if s.v h2 = value_of h3 h4 then some { s with pc := (s.pc + 4) % 65536 }
    else some { s with pc := (s.pc + 2) % 65536 }
  else if h1 = 0x4 then
    -- SNE Vx kk
    if s.v h2 ≠ value_of h3 h4 then some { s with pc := (s.pc + 4) % 65536 }
    else some { s with pc := (s.pc + 2) % 65536 }
  else if h1 = 0x5 ∧ h4 = 0x0 then
    -- SE Vx Vy
    if s.v h2 = s.v h3 then some { s with pc := (s.pc + 4) % 65536 }
    else some { s with pc := (s.pc + 2) % 65536 }
  else if h1 = 0x6 then
    -- LD Vx kk
    some { s with v := setV s.v h2 (value_of h3 h4), pc := (s.pc + 2) % 65536 }
  else if h1 = 0x7 then
    -- ADD Vx kk: `old.wrapping_add(value)`
    some { s with v := setV s.v h2 ((s.v h2 + value_of h3 h4) % 256)
                  pc := (s.pc + 2) % 65536 }
  else if h1 = 0x8 ∧ h4 = 0x0 then
    -- LD Vx Vy
    some { s with v := setV s.v h2 (s.v h3), pc := (s.pc + 2) % 65536 }
  else if h1 = 0x8 ∧ h4 = 0x1 then
    -- OR Vx Vy
    some { s with v := setV s.v h2 (s.v h2 ||| s.v h3), pc := (s.pc + 2) % 65536 }
  else if h1 = 0x8 ∧ h4 = 0x2 then
    -- AND Vx Vy
    some { s with v := setV s.v h2 (s.v h2 &&& s.v h3), pc := (s.pc + 2) % 65536 }
  else if h1 = 0x8 ∧ h4 = 0x3 then
    -- XOR Vx Vy
    some { s with v := setV s.v h2 (s.v h2 ^^^ s.v h3), pc := (s.pc + 2) % 65536 }
  else if h1 = 0x8 ∧ h4 = 0x4 then
    -- ADD Vx Vy: `(result, carry) = vx.overflowing_add(vy)`, then
    -- `v[x] = result; v[0xF] = carry`
    some { s with v := setV (setV s.v h2 ((s.v h2 + s.v h3) % 256)) 0xF
                    (if 256 ≤ s.v h2 + s.v h3 then 0x01 else 0x00)
                  pc := (s.pc + 2) % 65536 }
  else if h1 = 0x8 ∧ h4 = 0x5 then
    -- SUB Vx Vy: `(result, bollow) = vx.overflowing_sub(vy)`
    some { s with v := setV (setV s.v h2 ((s.v h2 + 256 - s.v h3) % 256)) 0xF
                    (if ¬ s.v h2 < s.v h3 then 0x01 else 0x00)
                  pc := (s.pc + 2) % 65536 }
  else if h1 = 0x8 ∧ h4 = 0x6 then
    -- SHR Vx: `v[0xF] = vx % 2; v[x] = vx >> 1`
    some { s with v := setV (setV s.v 0xF (if s.v h2 % 2 = 1 then 0x01 else 0x00))
                    h2 (s.v h2 >>> 1)
                  pc := (s.pc + 2) % 65536 }
  else if h1 = 0x8 ∧ h4 = 0x7 then
    -- SUBN Vx Vy: `(result, bollow) = vy.overflowing_sub(vx)`
    some { s with v := setV (setV s.v h2 ((s.v h3 + 256 - s.v h2) % 256)) 0xF
                    (if ¬ s.v h3 < s.v h2 then 0x01 else 0x00)
                  pc := (s.pc + 2) % 65536 }
  else if h1 = 0x8 ∧ h4 = 0xE then
    -- SHL Vx: `v[0xF] = (vx >> 7) % 2; v[x] = vx << 1` (u8 shift truncates)
    some { s with v := setV (setV s.v 0xF
                      (if (s.v h2 >>> 7) % 2 = 1 then 0x01 else 0x00))
                    h2 ((s.v h2 <<< 1) % 256)
                  pc := (s.pc + 2) % 65536 }
  else if h1 = 0x9 ∧ h4 = 0x0 then
    -- SNE Vx Vy
    if s.v h2 ≠ s.v h3 then some { s with pc := (s.pc + 4) % 65536 }
    else some { s with pc := (s.pc + 2) % 65536 }
  else if h1 = 0xA then
    -- LD I nnn
    some { s with i := address_of h2 h3 h4, pc := (s.pc + 2) % 65536 }
  else if h1 = 0xB then
    -- JP V0 nnn
    some { s with pc := (address_of h2 h3 h4 + s.v 0x0) % 65536 }
  else if h1 = 0xC then
    -- RND Vx kk: `v[x] = random & value`
    some { s with v := setV s.v h2 (rand &&& value_of h3 h4)
                  pc := (s.pc + 2) % 65536 }
  else if h1 = 0xD then
    -- DRW Vx Vy n
    (s.memory.load_sprite s.i h4).map (fun sprite =>
      let p := Display.draw_sprite s.display (s.v h2) (s.v h3) sprite
      { s with display := p.1
               v := setV s.v 0xF (if p.2 then 0x01 else 0x00)
               pc := (s.pc + 2) % 65536 })
  else if h1 = 0xE ∧ h3 = 0x9 ∧ h4 = 0xE then
    -- SKP Vx
    if s.keyboard.is_pressed (s.v h2) then some { s with pc := (s.pc + 4) % 65536 }
    else some { s with pc := (s.pc + 2) % 65536 }
  else if h1 = 0xE ∧ h3 = 0xA ∧ h4 = 0x1 then
    -- SKNP Vx
    if ¬ s.keyboard.is_pressed (s.v h2) then some { s with pc := (s.pc + 4) % 65536 }
    else some { s with pc := (s.pc + 2) % 65536 }
  else if h1 = 0xF ∧ h3 = 0x0 ∧ h4 = 0x7 then
    -- LD Vx DT
    some { s with v := setV s.v h2 s.dt, pc := (s.pc + 2) % 65536 }
  else if h1 = 0xF ∧ h3 = 0x0 ∧ h4 = 0xA then
    -- LD Vx K: suspend until a key press arrives
    some { s with waiting_key_for := some h2, pc := (s.pc + 2) % 65536 }
  else if h1 = 0xF ∧ h3 = 0x1 ∧ h4 = 0x5 then
    -- LD DT Vx
    some { s with dt := s.v h2, pc := (s.pc + 2) % 65536 }
  else if h1 = 0xF ∧ h3 = 0x1 ∧ h4 = 0x8 then
    -- LD ST Vx
    some { s with st := s.v h2, pc := (s.pc + 2) % 65536 }
  else if h1 = 0xF ∧ h3 = 0x1 ∧ h4 = 0xE then
    -- ADD I Vx
    some { s with i := (s.i + s.v h2) % 65536, pc := (s.pc + 2) % 65536 }
  else if h1 = 0xF ∧ h3 = 0x2 ∧ h4 = 0x9 then
    -- LD F Vx
    some { s with i := Memory.font_addr (s.v h2), pc := (s.pc + 2) % 65536 }
  else if h1 = 0xF ∧ h3 = 0x3 ∧ h4 = 0x3 then
    -- LD B Vx: BCD digits at I, I+1, I+2
    ((s.memory.store s.i (s.v h2 / 100)).bind (fun m1 =>
      (m1.store ((s.i + 1) % 65536) ((s.v h2 / 10) % 10)).bind (fun m2 =>
        m2.store ((s.i + 2) % 65536) (s.v h2 % 10)))).map (fun m3 =>
      { s with memory := m3, pc := (s.pc + 2) % 65536 })
  else if h1 = 0xF ∧ h3 = 0x5 ∧ h4 = 0x5 then
    -- LD [I] Vx: store V0..=Vx at I..
    ((List.range (h2 + 1)).foldlM (fun m offset =>
        Memory.store m ((s.i + offset) % 65536) (s.v offset)) s.memory).map
      (fun m' => { s with memory := m', pc := (s.pc + 2) % 65536 })
  else if h1 = 0xF ∧ h3 = 0x6 ∧ h4 = 0x5 then
    -- LD Vx [I]: load V0..=Vx from I..
    ((List.range (h2 + 1)).foldlM (fun vacc offset =>
        (Memory.load s.memory ((s.i + offset) % 65536)).map
          (fun value => setV vacc offset value)) s.v).map
      (fun v' => { s with v := v', pc := (s.pc + 2) % 65536 })
  else
    -- `panic!("UNSUPPORTED INST: …")`
    none

/-- `Message` (the iced `Instant` payloads carry no information used by
`update`; the `Clock` payload here is instead the byte that the rng of the
`Cxkk` arm would produce during that step). -/
inductive Message : Type
  | Clock (rand : Nat)
  | TickTimers
  | FromDisplay
  | FromKeyboard (message : KeyboardMessage)

/-- The `Message::TickTimers` arm of `Chip8::update`: decrement the delay
timer if positive; if the sound timer is positive command buzzer ON and
decrement it, else command buzzer OFF. -/
def timer_tick (s : Chip8) : Chip8 :=
  let s1 := if 0 < s.dt then { s with dt := s.dt - 1 } else s
  if 0 < s1.st then { s1 with buzzer := true, st := s1.st - 1 }
  else { s1 with buzzer := false }

/-- `Chip8::update(message)`.  A `Clock` step fetches and executes one
instruction unless suspended; `TickTimers` is `timer_tick`; a keyboard
`Press` received while suspended resolves the wait; every keyboard message
is then folded into the pressed-key set. -/
def update (message : Message) (s : Chip8) : Option Chip8 :=
  match message with
  | .Clock rand =>
      if s.waiting_key_for = none then
        (s.memory.load s.pc).bind (fun b1 =>
          (s.memory.load ((s.pc + 1) % 65536)).bind (fun b2 =>
            execute rand (b1 >>> 4) (b1 &&& 0x0F) (b2 >>> 4) (b2 &&& 0x0F) s))
      else some s
  | .TickTimers => some (timer_tick s)
  | .FromDisplay => some s
  | .FromKeyboard message =>
      let s' :=
        match message, s.waiting_key_for with
        | .Press value, some x =>
            { s with v := setV s.v x value, waiting_key_for := none }
        | _, _ => s
      some { s' with keyboard := s'.keyboard.update message }

/-- Messages the iced runtime can actually deliver: the rng byte of a
`Clock` step is drawn from the half-open range `0..0xFF`. -/
def MessageValid : Message → Prop
  | .Clock rand => rand < 0xFF
  | _ => True

/-- States reachable from the freshly loaded machine by any sequence of
delivered events. -/
inductive Reachable (rom : List Nat) : Chip8 → Prop
  | init (s : Chip8) : Chip8.new rom = some s → Reachable rom s
  | step (s : Chip8) (message : Message) (s' : Chip8) :
      Reachable rom s → MessageValid message → update message s = some s' →
      Reachable rom s'

/-! ## Startup validation (`src/main.rs`) -/

/-- The clock-speed check in `main`: `if 500 < clock_speed { panic!(…) }`;
`none` models the startup `panic!`. -/
def validate_clock_speed (clock_speed : Nat) : Option Nat :=
  if 500 < clock_speed then none else some clock_speed

/-- The clock subscription period `Duration::from_millis(1000 / clock_speed)`
from `Chip8::subscription`; Rust integer division panics when
`clock_speed = 0`, modelled by `none`. -/
def clock_period_millis (clock_speed : Nat) : Option Nat :=
  if clock_speed = 0 then none else some (1000 / clock_speed)

/-! ## Derived notions used to state and prove the claims -/

/-- Whether column `c` receives an incoming 1-bit from sprite byte `line`
drawn with horizontal origin `x`, over the column offsets `js`
(characterization helper for `Display.draw_sprite`). -/
def colHit (x line : Nat) (js : List Nat) (c : Nat) : Bool :=
  js.any (fun j => decide (c = (x + j) % 64) && lineBit line j)

/-- Whether column `c` receives an incoming 1-bit from sprite byte `line`
drawn with horizontal origin `x`. -/
def rowHit (x line c : Nat) : Bool := colHit x line (List.range 8) c

/-- Whether pixel `(r, c)` receives an incoming 1-bit from the enumerated
sprite rows `rows` drawn at origin `(x, y)`. -/
def sprHit (x y : Nat) (rows : List (Nat × Nat)) (r c : Nat) : Bool :=
  rows.any (fun p => decide (r = (y + p.1) % 32) && rowHit x p.2 c)

/-- The machine after `n` `Clock` events starting from a freshly loaded ROM
(the rng byte is fixed to 0; none of the traces considered execute `Cxkk`). -/
def iterClock (rom : List Nat) : Nat → Option Chip8
  | 0 => Chip8.new rom
  | n + 1 => (iterClock rom n).bind (update (Message.Clock 0))

/-- A concrete machine state used to instantiate theorems. -/
def baseState : Chip8 :=
  { v := fun _ => 0
    i := 0
    pc := 0x200
    sp := 0
    stack := fun _ => 0
    dt := 0
    st := 0
    memory := fun _ => 0
    display := Display.new
    keyboard := Keyboard.new
    buzzer := false
    waiting_key_for := none }

/-- A concrete state with `V0 = 1` and `VF = 1`, used to evaluate the
`8xy4` arm at `x = 0xF`. -/
def addState : Chip8 :=
  { baseState with v := fun n => if n = 0x0 then 1 else if n = 0xF then 1 else 0 }

/-! ## Helper lemmas -/

theorem any_congr_mem {α : Type} {l : List α} {p q : α → Bool}
    (h : ∀ a ∈ l, p a = q a) : l.any p = l.any q := by
  induction l with
  | nil => rfl
  | cons a t ih =>
    simp only [List.any_cons, h a (List.mem_cons_self a t),
      ih (fun b hb => h b (List.mem_cons_of_mem a hb))]

theorem foldl_drawCell_fst (wy x line : Nat) (js : List Nat)
    (hpw : js.Pairwise (fun j1 j2 => (x + j1) % 64 ≠ (x + j2) % 64))
    (acc : Display × Bool) (r c : Nat) :
    (js.foldl (drawCell wy x line) acc).1 r c =
      if r = wy then xor (acc.1 r c) (colHit x line js c) else acc.1 r c := by
  induction js generalizing acc with
  | nil => simp [colHit]
  | cons j t ih =>
    rw [List.pairwise_cons] at hpw
    obtain ⟨hj, hpwt⟩ := hpw
    rw [List.foldl_cons, ih hpwt]
    by_cases hr : r = wy
    · subst hr
      simp only [if_pos rfl]
      by_cases hc : c = (x + j) % 64
      · subst hc
        have hcol : colHit x line t ((x + j) % 64) = false := by
          simp only [colHit, List.any_eq_false]
          intro j' hj'
          simp [hj j' hj']
        have hhead : colHit x line (j :: t) ((x + j) % 64) = lineBit line j := by
          simp only [colHit, List.any_cons] at hcol ⊢
          simp [hcol]
        rw [hhead, hcol, Bool.xor_false]
        simp [drawCell, Display.set, DISPLAY_WIDTH]
      · simp [drawCell, Display.set, colHit, DISPLAY_WIDTH, hc]
    · simp [drawCell, Display.set, colHit, DISPLAY_WIDTH, hr]

theorem foldl_drawCell_snd (wy x line : Nat) (js : List Nat)
    (hpw : js.Pairwise (fun j1 j2 => (x + j1) % 64 ≠ (x + j2) % 64))
    (acc : Display × Bool) :
    (js.foldl (drawCell wy x line) acc).2 =
      (acc.2 || js.any (fun j => acc.1 wy ((x + j) % 64) && lineBit line j)) := by
  induction js generalizing acc with
  | nil => simp
  | cons j t ih =>
    rw [List.pairwise_cons] at hpw
    obtain ⟨hj, hpwt⟩ := hpw
    rw [List.foldl_cons, ih hpwt]
    have hcell1 : ∀ j' ∈ t,
        ((drawCell wy x line acc j).1 wy ((x + j') % 64) && lineBit line j') =
          (acc.1 wy ((x + j') % 64) && lineBit line j') := by
      intro j' hj'
      simp only [drawCell, Display.set, DISPLAY_WIDTH]
      rw [if_neg]
      intro hand
      exact (hj j' hj') hand.2.symm
    rw [any_congr_mem hcell1]
    simp [drawCell, DISPLAY_WIDTH, Bool.or_assoc]

theorem range8_pairwise (x : Nat) :
    (List.range 8).Pairwise (fun j1 j2 => (x + j1) % 64 ≠ (x + j2) % 64) := by
  refine List.Pairwise.imp_of_mem ?_ (List.pairwise_lt_range 8)
  intro a b ha hb hlt
  rw [List.mem_range] at ha hb
  omega

theorem drawRow_fst (x y : Nat) (acc : Display × Bool) (offset_y line r c : Nat) :
    (drawRow x y acc offset_y line).1 r c =
      if r = (y + offset_y) % 32 then xor (acc.1 r c) (rowHit x line c)
      else acc.1 r c := by
  have h := foldl_drawCell_fst ((y + offset_y) % DISPLAY_HEIGHT) x line
    (List.range 8) (range8_pairwise x) acc r c
  simpa [drawRow, rowHit, DISPLAY_HEIGHT] using h

theorem drawRow_snd (x y : Nat) (acc : Display × Bool) (offset_y line : Nat) :
    (drawRow x y acc offset_y line).2 =
      (acc.2 || (List.range 8).any
        (fun j => acc.1 ((y + offset_y) % 32) ((x + j) % 64) && lineBit line j)) := by
  have h := foldl_drawCell_snd ((y + offset_y) % DISPLAY_HEIGHT) x line
    (List.range 8) (range8_pairwise x) acc
  simpa [drawRow, DISPLAY_HEIGHT] using h

theorem foldl_drawRow_fst (x y : Nat) (rows : List (Nat × Nat))
    (hpw : rows.Pairwise (fun p q => (y + p.1) % 32 ≠ (y + q.1) % 32))
    (acc : Display × Bool) (r c : Nat) :
    ((rows.foldl (fun acc p => drawRow x y acc p.1 p.2) acc).1 r c) =
      xor (acc.1 r c) (sprHit x y rows r c) := by
  induction rows generalizing acc with
  | nil => simp [sprHit]
  | cons p t ih =>
    rw [List.pairwise_cons] at hpw
    obtain ⟨hp, hpwt⟩ := hpw
    rw [List.foldl_cons, ih hpwt, drawRow_fst]
    by_cases hr : r = (y + p.1) % 32
    · subst hr
      have htl : sprHit x y t ((y + p.1) % 32) c = false := by
        simp only [sprHit, List.any_eq_false]
        intro q hq
        simp [hp q hq]
      have hhd : sprHit x y (p :: t) ((y + p.1) % 32) c = rowHit x p.2 c := by
        simp only [sprHit, List.any_cons] at htl ⊢
        simp [htl]
      rw [if_pos rfl, hhd, htl, Bool.xor_false]
    · have hhd : sprHit x y (p :: t) r c = sprHit x y t r c := by
        simp only [sprHit, List.any_cons]
        simp [hr]
      rw [if_neg hr, hhd]

theorem foldl_drawRow_snd (x y : Nat) (rows : List (Nat × Nat))
    (hpw : rows.Pairwise (fun p q => (y + p.1) % 32 ≠ (y + q.1) % 32))
    (acc : Display × Bool) :
    ((rows.foldl (fun acc p => drawRow x y acc p.1 p.2) acc).2) =
      (acc.2 || rows.any (fun p => (List.range 8).any
        (fun j => acc.1 ((y + p.1) % 32) ((x + j) % 64) && lineBit p.2 j))) := by
  induction rows generalizing acc with
  | nil => simp
  | cons p t ih =>
    rw [List.pairwise_cons] at hpw
    obtain ⟨hp, hpwt⟩ := hpw
    rw [List.foldl_cons, ih hpwt]
    have hrow : ∀ q ∈ t,
        ((List.range 8).any (fun j =>
          (drawRow x y acc p.1 p.2).1 ((y + q.1) % 32) ((x + j) % 64) && lineBit q.2 j)) =
        ((List.range 8).any (fun j =>
          acc.1 ((y + q.1) % 32) ((x + j) % 64) && lineBit q.2 j)) := by
      intro q hq
      refine any_congr_mem ?_
      intro j hj
      rw [drawRow_fst, if_neg]
      exact fun h => (hp q hq) h.symm
    rw [any_congr_mem hrow, drawRow_snd]
    simp [Bool.or_assoc]

theorem enumFrom_pairwise_fst_lt {α : Type} (l : List α) (n : Nat) :
    (l.enumFrom n).Pairwise (fun p q => p.1 < q.1) := by
  induction l generalizing n with
  | nil => simp
  | cons a t ih =>
    simp only [List.enumFrom_cons, List.pairwise_cons]
    refine ⟨fun q hq => ?_, ih (n + 1)⟩
    have := List.le_fst_of_mem_enumFrom hq
    omega

theorem enum_pairwise_rows (y : Nat) (sprite : List Nat)
    (hlen : sprite.length ≤ 32) :
    sprite.enum.Pairwise (fun p q => (y + p.1) % 32 ≠ (y + q.1) % 32) := by
  refine List.Pairwise.imp_of_mem ?_ (enumFrom_pairwise_fst_lt sprite 0)
  intro p q hp hq hlt
  have hpb := List.fst_lt_add_of_mem_enumFrom hp
  have hqb := List.fst_lt_add_of_mem_enumFrom hq
  omega

theorem draw_sprite_fst (d : Display) (x y : Nat) (sprite : List Nat)
    (hlen : sprite.length ≤ 32) (r c : Nat) :
    (Display.draw_sprite d x y sprite).1 r c =
      xor (d r c) (sprHit x y sprite.enum r c) := by
  have h := foldl_drawRow_fst x y sprite.enum (enum_pairwise_rows y sprite hlen)
    (d, false) r c
  simpa [Display.draw_sprite] using h

theorem draw_sprite_snd (d : Display) (x y : Nat) (sprite : List Nat)
    (hlen : sprite.length ≤ 32) :
    (Display.draw_sprite d x y sprite).2 =
      sprite.enum.any (fun p => (List.range 8).any
        (fun j => d ((y + p.1) % 32) ((x + j) % 64) && lineBit p.2 j)) := by
  have h := foldl_drawRow_snd x y sprite.enum (enum_pairwise_rows y sprite hlen)
    (d, false)
  simpa [Display.draw_sprite] using h

/-! ## Claim C1 -/

/-- C1: drawing the identical sprite (at most 15 bytes) twice at the
identical origin restores the pre-first-draw pixel state, and the second
call reports `collision = true` whenever the first draw set some pixel to
true that the second draw also targets with an incoming 1-bit (a pixel is
set to true by the first draw exactly when it was false before and receives
an incoming 1-bit, here witnessed by sprite row `i` with byte `b` and
column offset `j`). -/
theorem draw_sprite_twice (d : Display) (x y : Nat) (sprite : List Nat)
    (hlen : sprite.length ≤ 15) :
    (Display.draw_sprite (Display.draw_sprite d x y sprite).1 x y sprite).1 = d ∧
    (∀ i b j, (i, b) ∈ sprite.enum → j < 8 → lineBit b j = true →
      d ((y + i) % 32) ((x + j) % 64) = false →
      (Display.draw_sprite (Display.draw_sprite d x y sprite).1 x y sprite).2 = true) := by
  have hlen32 : sprite.length ≤ 32 := by omega
  constructor
  · funext r c
    rw [draw_sprite_fst _ x y sprite hlen32, draw_sprite_fst _ x y sprite hlen32,
      Bool.xor_assoc, Bool.xor_self, Bool.xor_false]
  · intro i b j hmem hj hbit hold
    rw [draw_sprite_snd _ x y sprite hlen32]
    rw [List.any_eq_true]
    refine ⟨(i, b), hmem, ?_⟩
    rw [List.any_eq_true]
    refine ⟨j, List.mem_range.mpr hj, ?_⟩
    have hg1 : (Display.draw_sprite d x y sprite).1 ((y + i) % 32) ((x + j) % 64) = true := by
      rw [draw_sprite_fst d x y sprite hlen32, hold]
      have : sprHit x y sprite.enum ((y + i) % 32) ((x + j) % 64) = true := by
        rw [sprHit, List.any_eq_true]
        refine ⟨(i, b), hmem, ?_⟩
        rw [Bool.and_eq_true]
        refine ⟨by simp, ?_⟩
        rw [rowHit, colHit, List.any_eq_true]
        exact ⟨j, List.mem_range.mpr hj, by simp [hbit]⟩
      rw [this]
      rfl
    simp [hg1, hbit]

/-- Witness for C1: a one-byte sprite `[0x80]` drawn twice at the origin on
an empty screen restores the empty screen, and the second draw collides. -/
theorem draw_sprite_twice_witness :
    (Display.draw_sprite (Display.draw_sprite Display.new 0 0 [0x80]).1 0 0 [0x80]).1
        = Display.new ∧
    (Display.draw_sprite (Display.draw_sprite Display.new 0 0 [0x80]).1 0 0 [0x80]).2
        = true :=
  ⟨(draw_sprite_twice Display.new 0 0 [0x80] (by decide)).1,
   (draw_sprite_twice Display.new 0 0 [0x80] (by decide)).2 0 0x80 0
     (by decide) (by decide) (by decide) (by decide)⟩

/-! ## Claim C2 (opcode 8xy4) -/

/-- C2 (amended): `8xy4` computes `(Vx + Vy) mod 256` and the carry, writes
the sum to `Vx` and then the carry flag to `VF`; the final `VF` always holds
the carry (1 iff `Vx + Vy ≥ 256`) and `pc` advances by 2, while `Vx` holds
the sum only when `x ≠ 0xF` — for `x = 0xF` the flag write overwrites the
sum, so `VF` ends holding only the carry. -/
theorem add_vx_vy (rand x y : Nat) (s : Chip8) :
    (execute rand 0x8 x y 0x4 s).map (fun t => (t.v 0xF, t.pc)) =
      some ((if 256 ≤ s.v x + s.v y then 0x01 else 0x00), (s.pc + 2) % 65536) ∧
    (x ≠ 0xF → (execute rand 0x8 x y 0x4 s).map (fun t => t.v x) =
      some ((s.v x + s.v y) % 256)) := by
  have hred : execute rand 0x8 x y 0x4 s =
      some { s with v := setV (setV s.v x ((s.v x + s.v y) % 256)) 0xF
                      (if 256 ≤ s.v x + s.v y then 0x01 else 0x00)
                    pc := (s.pc + 2) % 65536 } := rfl
  rw [hred]
  constructor
  · simp [setV]
  · intro hx
    simp [setV, hx]

/-- C2 counterexample: with `VF = 1` and `V0 = 1`, executing `8F04`
(`x = 0xF`, `y = 0`) leaves `VF = 0` (the carry), not
`(VF + V0) mod 256 = 2` as the claim requires for `x = 0xF`. -/
theorem add_vx_vy_cex :
    (execute 0 0x8 0xF 0x0 0x4 addState).map (fun t => t.v 0xF) ≠
      some ((addState.v 0xF + addState.v 0x0) % 256) := by decide

/-- C2 witness: `8104` on `V1 = 0, V0 = 1` gives `V1 = 1`, `VF = 0`,
`pc = 0x202`. -/
theorem add_vx_vy_witness :
    ((execute 0 0x8 0x1 0x0 0x4 addState).map (fun t => (t.v 0xF, t.pc)) =
      some (0x00, 0x202)) ∧
    ((execute 0 0x8 0x1 0x0 0x4 addState).map (fun t => t.v 0x1) = some 1) := by
  have h := add_vx_vy 0 0x1 0x0 addState
  refine ⟨?_, ?_⟩
  · have := h.1
    simpa using this
  · have := h.2 (by decide)
    simpa using this

/-! ## Claim C3 (timer tick) -/

theorem timer_tick_st_buzzer (s : Chip8) :
    (timer_tick s).st = s.st - 1 ∧ (timer_tick s).buzzer = decide (0 < s.st) := by
  unfold timer_tick
  by_cases hdt : 0 < s.dt <;> by_cases hst : 0 < s.st <;>
    simp [hdt, hst] <;> omega

theorem timer_tick_iterate_st (s : Chip8) (n : Nat) :
    (timer_tick^[n] s).st = s.st - n := by
  induction n with
  | zero => simp
  | succ n ih =>
    rw [Function.iterate_succ_apply', (timer_tick_st_buzzer _).1, ih]
    omega

/-- C3: one timer tick decrements the delay timer if positive (else leaves
it 0); if the sound timer is positive at tick start it commands buzzer ON
and decrements it, else it commands buzzer OFF; with sound timer 3, ticks
1–3 command ON reaching 2, 1, 0 and every tick from the 4th on commands OFF
with the sound timer staying 0. -/
theorem timer_tick_spec (s : Chip8) :
    ((0 < s.dt → (timer_tick s).dt = s.dt - 1) ∧
     (s.dt = 0 → (timer_tick s).dt = 0)) ∧
    ((0 < s.st → (timer_tick s).buzzer = true ∧ (timer_tick s).st = s.st - 1) ∧
     (s.st = 0 → (timer_tick s).buzzer = false ∧ (timer_tick s).st = 0)) ∧
    (s.st = 3 →
      ((timer_tick^[1] s).buzzer = true ∧ (timer_tick^[1] s).st = 2) ∧
      ((timer_tick^[2] s).buzzer = true ∧ (timer_tick^[2] s).st = 1) ∧
      ((timer_tick^[3] s).buzzer = true ∧ (timer_tick^[3] s).st = 0) ∧
      (∀ n, 4 ≤ n → (timer_tick^[n] s).buzzer = false ∧ (timer_tick^[n] s).st = 0)) := by
  refine ⟨⟨?_, ?_⟩, ⟨?_, ?_⟩, ?_⟩
  · intro h
    unfold timer_tick
    by_cases hst : 0 < s.st <;> simp [h, hst]
  · intro h
    unfold timer_tick
    by_cases hst : 0 < s.st <;> simp [h, hst]
  · intro h
    obtain ⟨h1, h2⟩ := timer_tick_st_buzzer s
    exact ⟨by simp [h2, h], h1⟩
  · intro h
    obtain ⟨h1, h2⟩ := timer_tick_st_buzzer s
    refine ⟨by simp [h2, h], by omega⟩
  · intro h3
    have hbz : ∀ n, (timer_tick^[n + 1] s).buzzer = decide (0 < s.st - n) := by
      intro n
      rw [Function.iterate_succ_apply', (timer_tick_st_buzzer _).2,
        timer_tick_iterate_st]
    refine ⟨⟨?_, ?_⟩, ⟨?_, ?_⟩, ⟨?_, ?_⟩, ?_⟩
    · rw [hbz 0]; simp [h3]
    · rw [timer_tick_iterate_st, h3]
    · rw [hbz 1]; simp [h3]
    · rw [timer_tick_iterate_st, h3]
    · rw [hbz 2]; simp [h3]
    · rw [timer_tick_iterate_st, h3]
    · intro n hn
      obtain ⟨m, rfl⟩ : ∃ m, n = m + 1 := ⟨n - 1, by omega⟩
      refine ⟨?_, ?_⟩
      · rw [hbz m]; simp; omega
      · rw [timer_tick_iterate_st, h3]; omega

/-- C3 witness (Scenario E with delay timer 5). -/
theorem timer_tick_spec_witness :
    ((timer_tick { baseState with st := 3, dt := 5 }).dt = 4) ∧
    ((timer_tick^[1] { baseState with st := 3, dt := 5 }).buzzer = true) ∧
    ((timer_tick^[3] { baseState with st := 3, dt := 5 }).st = 0) ∧
    ((timer_tick^[4] { baseState with st := 3, dt := 5 }).buzzer = false) := by
  have h := timer_tick_spec { baseState with st := 3, dt := 5 }
  have hs := h.2.2 (by decide)
  exact ⟨h.1.1 (by decide), hs.1.1, hs.2.2.1.2, (hs.2.2.2 4 (by decide)).1⟩

/-! ## Claim C4 (wait-for-key suspension) -/

/-- C4: while suspended awaiting a key for register `x`, a `Press(k)` event
writes `k` into register `x`, clears the suspension (back to running) and
records the key as pressed; a `Release` event never resolves the wait and
only updates the pressed-key set; a `Clock` event is a no-op on the state. -/
theorem waiting_key_spec (s : Chip8) (x k : Nat)
    (h : s.waiting_key_for = some x) :
    ((update (.FromKeyboard (.Press k)) s).map
        (fun t => (t.v x, t.waiting_key_for, t.keyboard.is_pressed k)) =
      some (k, none, true)) ∧
    ((update (.FromKeyboard (.Release k)) s).map
        (fun t => (t.waiting_key_for, t.v, t.keyboard.is_pressed k)) =
      some (some x, s.v, false)) ∧
    (∀ rand, update (.Clock rand) s = some s) := by
  refine ⟨?_, ?_, ?_⟩
  · simp only [update, h]
    simp [setV, Keyboard.update, Keyboard.is_pressed]
  · simp only [update, h]
    simp [Keyboard.update, Keyboard.is_pressed]
  · intro rand
    simp [update, h]

/-- C4 witness (Scenario D: suspended awaiting a key for register 3, then
`Press(0x7)` arrives). -/
theorem waiting_key_spec_witness :
    ((update (.FromKeyboard (.Press 0x7)) { baseState with waiting_key_for := some 3 }).map
        (fun t => (t.v 3, t.waiting_key_for, t.keyboard.is_pressed 0x7)) =
      some (0x7, none, true)) ∧
    ((update (.FromKeyboard (.Release 0x7)) { baseState with waiting_key_for := some 3 }).map
        (fun t => (t.waiting_key_for, t.v, t.keyboard.is_pressed 0x7)) =
      some (some 3, { baseState with waiting_key_for := some 3 }.v, false)) ∧
    (update (.Clock 0) { baseState with waiting_key_for := some 3 } =
      some { baseState with waiting_key_for := some 3 }) := by
  have h := waiting_key_spec { baseState with waiting_key_for := some 3 } 3 0x7 rfl
  exact ⟨h.1, h.2.1, h.2.2 0⟩

/-! ## Claim C5 (CALL / RET) -/

/-- C5: with `sp < 16`, `2nnn` at `pc = p` pushes the pre-call `p` (not
`p + 2`) at stack slot `sp`, increments `sp` after the push and sets
`pc = nnn`; a subsequent `00EE` pops (decrementing `sp` back) and sets
`pc = p + 2`. -/
theorem call_then_ret (rand rand' : Nat) (s : Chip8) (n1 n2 n3 : Nat)
    (hsp : s.sp < 16) (hpc : s.pc + 2 < 65536) :
    ∃ s', execute rand 0x2 n1 n2 n3 s = some s' ∧
      s'.stack s.sp = s.pc ∧ s'.sp = s.sp + 1 ∧ s'.pc = address_of n1 n2 n3 ∧
      ∃ s'', execute rand' 0x0 0x0 0xE 0xE s' = some s'' ∧
        s''.sp = s.sp ∧ s''.pc = s.pc + 2 := by
  have hcall : execute rand 0x2 n1 n2 n3 s =
      (if s.sp < 16 then
        some { s with stack := fun n => if n = s.sp then s.pc else s.stack n
                      sp := s.sp + 1
                      pc := address_of n1 n2 n3 }
      else none) := rfl
  rw [hcall, if_pos hsp]
  refine ⟨_, rfl, by simp, rfl, rfl, ?_⟩
  have hret : execute rand' 0x0 0x0 0xE 0xE
      { s with stack := fun n => if n = s.sp then s.pc else s.stack n
               sp := s.sp + 1
               pc := address_of n1 n2 n3 } =
      (if s.sp + 1 = 0 then none
       else if s.sp + 1 - 1 < 16 then
         some { s with stack := fun n => if n = s.sp then s.pc else s.stack n
                       sp := s.sp + 1 - 1
                       pc := ((if s.sp + 1 - 1 = s.sp then s.pc
                               else s.stack (s.sp + 1 - 1)) + 2) % 65536 }
       else none) := rfl
  rw [hret, if_neg (by omega), if_pos (by omega)]
  refine ⟨_, rfl, by simp, ?_⟩
  simp only [Nat.add_sub_cancel, if_pos rfl]
  exact Nat.mod_eq_of_lt hpc

/-- C5 witness: `CALL 0x300` then `RET` from the fresh state returns with
`sp = 0` and `pc = 0x202`. -/
theorem call_then_ret_witness :
    ((execute 0 0x2 0x3 0x0 0x0 baseState).bind
        (fun t => execute 0 0x0 0x0 0xE 0xE t)).map (fun t => (t.sp, t.pc)) =
      some (0, 0x202) := by
  obtain ⟨s', hs', hstk, hsp1, hpc1, s'', hs'', hsp2, hpc2⟩ :=
    call_then_ret 0 0 baseState 0x3 0x0 0x0 (by decide) (by decide)
  rw [hs']
  simp [hs'', hsp2, hpc2, baseState]

/-! ## Claim C6 (stack pointer bound) -/

set_option maxHeartbeats 1000000 in
theorem execute_sp_le (rand h1 h2 h3 h4 : Nat) (s s' : Chip8)
    (h : execute rand h1 h2 h3 h4 s = some s') (hsp : s.sp ≤ 16) :
    s'.sp ≤ 16 := by
  unfold execute at h
  by_cases c1 : h1 = 0x0 ∧ h2 = 0x0 ∧ h3 = 0xE ∧ h4 = 0x0
  · rw [if_pos c1] at h
    injection h with h; subst h; simpa using hsp
  rw [if_neg c1] at h
  by_cases c2 : h1 = 0x0 ∧ h2 = 0x0 ∧ h3 = 0xE ∧ h4 = 0xE
  · rw [if_pos c2] at h
    split_ifs at h <;>
      first
        | (injection h with h; subst h; simp; omega)
        | (exact Option.noConfusion h)
  rw [if_neg c2] at h
  by_cases c3 : h1 = 0x1
  · rw [if_pos c3] at h
    injection h with h; subst h; simpa using hsp
  rw [if_neg c3] at h
  by_cases c4 : h1 = 0x2
  · rw [if_pos c4] at h
    split_ifs at h <;>
      first
        | (injection h with h; subst h; simp; omega)
        | (exact Option.noConfusion h)
  rw [if_neg c4] at h
  by_cases c5 : h1 = 0x3
  · rw [if_pos c5] at h
    split_ifs at h <;> (injection h with h; subst h; simpa using hsp)
  rw [if_neg c5] at h
  by_cases c6 : h1 = 0x4
  · rw [if_pos c6] at h
    split_ifs at h <;> (injection h with h; subst h; simpa using hsp)
  rw [if_neg c6] at h
  by_cases c7 : h1 = 0x5 ∧ h4 = 0x0
  · rw [if_pos c7] at h
    split_ifs at h <;> (injection h with h; subst h; simpa using hsp)
  rw [if_neg c7] at h
  by_cases c8 : h1 = 0x6
  · rw [if_pos c8] at h
    injection h with h; subst h; simpa using hsp
  rw [if_neg c8] at h
  by_cases c9 : h1 = 0x7
  · rw [if_pos c9] at h
    injection h with h; subst h; simpa using hsp
  rw [if_neg c9] at h
  by_cases c10 : h1 = 0x8 ∧ h4 = 0x0
  · rw [if_pos c10] at h
    injection h with h; subst h; simpa using hsp
  rw [if_neg c10] at h
  by_cases c11 : h1 = 0x8 ∧ h4 = 0x1
  · rw [if_pos c11] at h
    injection h with h; subst h; simpa using hsp
  rw [if_neg c11] at h
  by_cases c12 : h1 = 0x8 ∧ h4 = 0x2
  · rw [if_pos c12] at h
    injection h with h; subst h; simpa using hsp
  rw [if_neg c12] at h
  by_cases c13 : h1 = 0x8 ∧ h4 = 0x3
  · rw [if_pos c13] at h
    injection h with h; subst h; simpa using hsp
  rw [if_neg c13] at h
  by_cases c14 : h1 = 0x8 ∧ h4 = 0x4
  · rw [if_pos c14] at h
    injection h with h; subst h; simpa using hsp
  rw [if_neg c14] at h
  by_cases c15 : h1 = 0x8 ∧ h4 = 0x5
  · rw [if_pos c15] at h
    injection h with h; subst h; simpa using hsp
  rw [if_neg c15] at h
  by_cases c16 : h1 = 0x8 ∧ h4 = 0x6
  · rw [if_pos c16] at h
    injection h with h; subst h; simpa using hsp
  rw [if_neg c16] at h
  by_cases c17 : h1 = 0x8 ∧ h4 = 0x7
  · rw [if_pos c17] at h
    injection h with h; subst h; simpa using hsp
  rw [if_neg c17] at h
  by_cases c18 : h1 = 0x8 ∧ h4 = 0xE
  · rw [if_pos c18] at h
    injection h with h; subst h; simpa using hsp
  rw [if_neg c18] at h
  by_cases c19 : h1 = 0x9 ∧ h4 = 0x0
  · rw [if_pos c19] at h
    split_ifs at h <;> (injection h with h; subst h; simpa using hsp)
  rw [if_neg c19] at h
  by_cases c20 : h1 = 0xA
  · rw [if_pos c20] at h
    injection h with h; subst h; simpa using hsp
  rw [if_neg c20] at h
  by_cases c21 : h1 = 0xB
  · rw [if_pos c21] at h
    injection h with h; subst h; simpa using hsp
  rw [if_neg c21] at h
  by_cases c22 : h1 = 0xC
  · rw [if_pos c22] at h
    injection h with h; subst h; simpa using hsp
  rw [if_neg c22] at h
  by_cases c23 : h1 = 0xD
  · rw [if_pos c23] at h
    rw [Option.map_eq_some'] at h
    obtain ⟨a, -, rfl⟩ := h
    simpa using hsp
  rw [if_neg c23] at h
  by_cases c24 : h1 = 0xE ∧ h3 = 0x9 ∧ h4 = 0xE
  · rw [if_pos c24] at h
    split_ifs at h <;> (injection h with h; subst h; simpa using hsp)
  rw [if_neg c24] at h
  by_cases c25 : h1 = 0xE ∧ h3 = 0xA ∧ h4 = 0x1
  · rw [if_pos c25] at h
    split_ifs at h <;> (injection h with h; subst h; simpa using hsp)
  rw [if_neg c25] at h
  by_cases c26 : h1 = 0xF ∧ h3 = 0x0 ∧ h4 = 0x7
  · rw [if_pos c26] at h
    injection h with h; subst h; simpa using hsp
  rw [if_neg c26] at h
  by_cases c27 : h1 = 0xF ∧ h3 = 0x0 ∧ h4 = 0xA
  · rw [if_pos c27] at h
    injection h with h; subst h; simpa using hsp
  rw [if_neg c27] at h
  by_cases c28 : h1 = 0xF ∧ h3 = 0x1 ∧ h4 = 0x5
  · rw [if_pos c28] at h
    injection h with h; subst h; simpa using hsp
  rw [if_neg c28] at h
  by_cases c29 : h1 = 0xF ∧ h3 = 0x1 ∧ h4 = 0x8
  · rw [if_pos c29] at h
    injection h with h; subst h; simpa using hsp
  rw [if_neg c29] at h
  by_cases c30 : h1 = 0xF ∧ h3 = 0x1 ∧ h4 = 0xE
  · rw [if_pos c30] at h
    injection h with h; subst h; simpa using hsp
  rw [if_neg c30] at h
  by_cases c31 : h1 = 0xF ∧ h3 = 0x2 ∧ h4 = 0x9
  · rw [if_pos c31] at h
    injection h with h; subst h; simpa using hsp
  rw [if_neg c31] at h
  by_cases c32 : h1 = 0xF ∧ h3 = 0x3 ∧ h4 = 0x3
  · rw [if_pos c32] at h
    rw [Option.map_eq_some'] at h
    obtain ⟨a, -, rfl⟩ := h
    simpa using hsp
  rw [if_neg c32] at h
  by_cases c33 : h1 = 0xF ∧ h3 = 0x5 ∧ h4 = 0x5
  · rw [if_pos c33] at h
    rw [Option.map_eq_some'] at h
    obtain ⟨a, -, rfl⟩ := h
    simpa using hsp
  rw [if_neg c33] at h
  by_cases c34 : h1 = 0xF ∧ h3 = 0x6 ∧ h4 = 0x5
  · rw [if_pos c34] at h
    rw [Option.map_eq_some'] at h
    obtain ⟨a, -, rfl⟩ := h
    simpa using hsp
  rw [if_neg c34] at h
  simp at h

theorem timer_tick_sp (s : Chip8) : (timer_tick s).sp = s.sp := by
  unfold timer_tick
  by_cases hdt : 0 < s.dt <;> by_cases hst : 0 < s.st <;> simp [hdt, hst]

theorem update_sp_le (message : Message) (s s' : Chip8)
    (h : update message s = some s') (hsp : s.sp ≤ 16) : s'.sp ≤ 16 := by
  cases message with
  | Clock rand =>
    rw [update] at h
    by_cases hw : s.waiting_key_for = none
    · rw [if_pos hw] at h
      rw [Option.bind_eq_some] at h
      obtain ⟨b1, -, h⟩ := h
      rw [Option.bind_eq_some] at h
      obtain ⟨b2, -, h⟩ := h
      exact execute_sp_le _ _ _ _ _ s s' h hsp
    · rw [if_neg hw] at h
      injection h with h
      subst h
      exact hsp
  | TickTimers =>
    rw [update] at h
    injection h with h
    subst h
    rw [timer_tick_sp]
    exact hsp
  | FromDisplay =>
    rw [update] at h
    injection h with h
    subst h
    exact hsp
  | FromKeyboard kmsg =>
    cases kmsg with
    | Press value =>
      cases hw : s.waiting_key_for with
      | some x =>
        simp only [update, hw] at h
        injection h with h
        subst h
        simpa using hsp
      | none =>
        simp only [update, hw] at h
        injection h with h
        subst h
        simpa using hsp
    | Release value =>
      cases hw : s.waiting_key_for with
      | some x =>
        simp only [update, hw] at h
        injection h with h
        subst h
        simpa using hsp
      | none =>
        simp only [update, hw] at h
        injection h with h
        subst h
        simpa using hsp

/-- C6 (amended): in every reachable state the stack pointer lies in
`[0, 16]`; the half-open bound `[0, 16)` of the claim fails because sixteen
nested calls drive `sp` to exactly 16 (see `sp_reaches_16`), and only the
next `CALL` faults on the stack index. -/
theorem reachable_sp_le (rom : List Nat) (s : Chip8) (h : Reachable rom s) :
    s.sp ≤ 16 := by
  induction h with
  | init s hs =>
    rw [Chip8.new, Option.map_eq_some'] at hs
    obtain ⟨m, -, rfl⟩ := hs
    simp
  | step s message s' hr hv hu ih => exact update_sp_le message s s' hu ih

theorem iterClock_reachable (rom : List Nat) (n : Nat) (s : Chip8)
    (h : iterClock rom n = some s) : Reachable rom s := by
  induction n generalizing s with
  | zero => exact Reachable.init s h
  | succ n ih =>
    rw [iterClock, Option.bind_eq_some] at h
    obtain ⟨t, ht, hu⟩ := h
    exact Reachable.step t _ s (ih t ht) (by rw [MessageValid]; omega) hu

/-- C6 counterexample: with the two-byte ROM `22 00` (`CALL 0x200` in an
endless self-call), the state after sixteen `Clock` events is reachable and
has `sp = 16`, refuting `sp < 16` for all reachable states. -/
theorem sp_reaches_16 : ¬ (∀ rom s, Reachable rom s → s.sp < 16) := by
  intro hall
  have h16 : (iterClock [0x22, 0x00] 16).map (fun t => t.sp) = some 16 := by decide
  cases heq : iterClock [0x22, 0x00] 16 with
  | none => rw [heq] at h16; simp at h16
  | some s =>
    have hlt := hall [0x22, 0x00] s (iterClock_reachable _ 16 s heq)
    rw [heq, Option.map_some'] at h16
    injection h16 with h16
    omega

/-- C6 witness: the amended bound applied to the concrete reachable state
after sixteen `Clock` events on the self-call ROM. -/
theorem reachable_sp_le_witness :
    ((iterClock [0x22, 0x00] 16).map (fun t => t.sp)).getD 0 ≤ 16 := by
  cases heq : iterClock [0x22, 0x00] 16 with
  | none => simp
  | some s =>
    simpa [heq] using reachable_sp_le [0x22, 0x00] s (iterClock_reachable _ 16 s heq)

/-! ## Claim C7 (clock-rate validation) -/

/-- C7: the startup check of `main` rejects exactly the clock speeds above
500 — so `--clock 0`, although outside the documented range 1–500, passes
the startup validation (`validate_clock_speed 0 = some 0`) and only later
makes the subscription's period computation `1000 / 0` fault, after the VM
has started. -/
theorem clock_zero_passes_startup_check :
    validate_clock_speed 0 = some 0 ∧ clock_period_millis 0 = none ∧
    validate_clock_speed 501 = none ∧
    (∀ c, validate_clock_speed c = none ↔ 500 < c) := by
  refine ⟨by decide, by decide, by decide, ?_⟩
  intro c
  rw [validate_clock_speed]
  split_ifs with hc <;> simp [hc]

/-! ## Claim C8 (ROM capacity) -/

theorem storeBytes_isSome (bytes : List Nat) (base : Nat) (m : Memory) :
    (storeBytes m base bytes).isSome = true ↔
      (bytes = [] ∨ base + bytes.length ≤ 4096) := by
  induction bytes generalizing base m with
  | nil => simp [storeBytes]
  | cons b rest ih =>
    rw [storeBytes, Memory.store, MEMORY_SIZE]
    by_cases hb : base < 4096
    · rw [if_pos hb, Option.some_bind, ih]
      simp only [List.length_cons]
      constructor
      · rintro (rfl | hle)
        · right; simp; omega
        · right; omega
      · rintro (hcons | hle)
        · exact absurd hcons (List.cons_ne_nil b rest)
        · by_cases hrest : rest = []
          · exact Or.inl hrest
          · right; omega
    · rw [if_neg hb, Option.none_bind]
      simp only [Option.isSome_none, List.length_cons]
      constructor
      · intro hfalse; exact absurd hfalse (by simp)
      · rintro (hcons | hle)
        · exact absurd hcons (List.cons_ne_nil b rest)
        · omega

theorem with_rom_isSome_iff (rom : List Nat) :
    (Memory.with_rom rom).isSome = true ↔ rom.length ≤ 0xE00 := by
  rw [Memory.with_rom]
  have hfont : (storeBytes (fun _ => 0) 0 FONT).isSome = true := by
    rw [storeBytes_isSome]
    right
    simp [FONT]
  rw [Option.isSome_iff_exists] at hfont
  obtain ⟨mf, hmf⟩ := hfont
  rw [hmf, Option.some_bind, storeBytes_isSome]
  constructor
  · rintro (rfl | hle)
    · simp
    · omega
  · intro hle
    by_cases hrom : rom = []
    · exact Or.inl hrom
    · right; omega

/-- C8 (amended): loading performs no explicit capacity check, but an
oversized ROM does not silently write past the program region either: the
per-index bounds check of the byte array faults (panics) at the first
excess write, so `Memory::with_rom` succeeds exactly when the ROM fits in
the `0xE00`-byte program capacity. -/
theorem with_rom_capacity (rom : List Nat) :
    (Memory.with_rom rom).isSome = true ↔ rom.length ≤ 0xE00 :=
  with_rom_isSome_iff rom

/-- C8 counterexample: a ROM one byte over capacity makes loading fault
(`none`, the Rust index panic), contradicting the claimed silent
out-of-region write. -/
theorem oversized_rom_faults :
    Memory.with_rom (List.replicate 0xE01 0x00) = none := by
  have h := with_rom_isSome_iff (List.replicate 0xE01 0x00)
  rw [List.length_replicate] at h
  cases heq : Memory.with_rom (List.replicate 0xE01 0x00) with
  | none => rfl
  | some m =>
    rw [heq] at h
    have := h.mp (by simp)
    omega

/-! ## Claim C9 (timer tick vs. suspension) -/

/-- C9: a `TickTimers` event has exactly the same effect on the timers and
the buzzer command whatever the `waiting_key_for` marker is — suspension
gates only `Clock` instruction steps, not timer ticks. -/
theorem tick_ignores_suspension (s : Chip8) (w : Option Nat) :
    update Message.TickTimers { s with waiting_key_for := w } =
      some { timer_tick s with waiting_key_for := w } := by
  rw [update]
  unfold timer_tick
  by_cases hdt : 0 < s.dt <;> by_cases hst : 0 < s.st <;> simp [hdt, hst]

/-! ## Claim C10 (Cxkk random masking) -/

/-- C10: the `Cxkk` rng byte is drawn from `[0, 0xFF)` (hypothesis `hrand`,
as guaranteed by `gen_range(0..0xFF)`); executing `Cxkk` stores
`rand AND kk` in `Vx`, so `Vx AND (NOT kk) = 0` always, and when
`kk = 0xFF` the stored value is never `0xFF`. -/
theorem rnd_masked (s : Chip8) (rand x k1 k2 : Nat) (hrand : rand < 0xFF)
    (hk1 : k1 < 16) (hk2 : k2 < 16) :
    ∃ s', execute rand 0xC x k1 k2 s = some s' ∧
      s'.v x = rand &&& value_of k1 k2 ∧
      s'.v x &&& (value_of k1 k2 ^^^ 0xFF) = 0 ∧
      (value_of k1 k2 = 0xFF → s'.v x ≠ 0xFF) := by
  have hred : execute rand 0xC x k1 k2 s =
      some { s with v := setV s.v x (rand &&& value_of k1 k2)
                    pc := (s.pc + 2) % 65536 } := rfl
  have hkk : value_of k1 k2 < 256 := by
    rw [value_of]; omega
  refine ⟨_, hred, by simp [setV], ?_, ?_⟩
  · simp only [setV, eq_self_iff_true, if_true]
    apply Nat.eq_of_testBit_eq
    intro i
    simp only [Nat.testBit_and, Nat.testBit_xor, Nat.zero_testBit]
    by_cases hi : i < 8
    · have h255 : Nat.testBit 0xFF i = true := by
        interval_cases i <;> rfl
      rw [h255]
      cases hkb : (value_of k1 k2).testBit i <;> simp [hkb]
    · have hkb : (value_of k1 k2).testBit i = false := by
        apply Nat.testBit_lt_two_pow
        calc value_of k1 k2 < 256 := hkk
          _ = 2 ^ 8 := by norm_num
          _ ≤ 2 ^ i := Nat.pow_le_pow_right (by norm_num) (by omega)
      simp [hkb]
  · intro hff
    simp only [setV, hff, eq_self_iff_true, if_true]
    have hle : rand &&& 0xFF ≤ rand := Nat.and_le_left
    intro heq
    rw [heq] at hle
    omega

/-- C10 witness: `C1FF` with the maximal rng byte `0xFE` stores `0xFE`,
which is not `0xFF`. -/
theorem rnd_masked_witness :
    ((execute 0xFE 0xC 0x1 0xF 0xF baseState).map (fun t => t.v 0x1) =
      some 0xFE) ∧ (0xFE : Nat) ≠ 0xFF := by
  obtain ⟨s', hs', hv, hmask, hne⟩ :=
    rnd_masked baseState 0xFE 0x1 0xF 0xF (by decide) (by decide) (by decide)
  constructor
  · rw [hs', Option.map_some']
    rw [hv]
    rfl
  · decide

end RustChip8
